import Mathlib

/-!
Verification of the Zenalyst analytics backend aggregation core.

The JavaScript services are embedded shallowly: collections become Lean
lists, documents become structures whose optional numeric fields model a
missing or null field, and the idiom `x || 0` becomes `Option.getD 0`.
Numeric values are modelled by the rationals, giving the exact-arithmetic
semantics of the arithmetic the source performs.
-/

namespace Zenalyst

/-! ## Data model

A country or region document: a label (field "Country" resp. "Region")
paired with an optional metric (field "Yearly Revenue"; `none` models a
missing or null field). -/

structure Record where
  label : String
  revenue : Option ℚ
deriving DecidableEq, Repr

/-- The metric of a record as the services read it: `r["Yearly Revenue"] || 0`. -/
def rval (r : Record) : ℚ := r.revenue.getD 0

/-- A customer document from the quarterly-revenue collection: fields
"Customer Name", "Quarter 3 Revenue", "Quarter 4 Revenue", "Variance",
"Percentage of Variance" (optional fields model missing values). -/
structure CustomerRec where
  name : String
  q3 : Option ℚ
  q4 : Option ℚ
  variance : Option ℚ
  pctVariance : Option ℚ
deriving DecidableEq, Repr

/-- `c["Quarter 3 Revenue"] || 0`. -/
def q3val (c : CustomerRec) : ℚ := c.q3.getD 0

/-- `c["Quarter 4 Revenue"] || 0`. -/
def q4val (c : CustomerRec) : ℚ := c.q4.getD 0

/-- `c["Variance"] || 0`. -/
def varval (c : CustomerRec) : ℚ := c.variance.getD 0

/-- `c["Percentage of Variance"] || 0`. -/
def pctval (c : CustomerRec) : ℚ := c.pctVariance.getD 0

/-! ## responseHandler.js: transformData.roundToDecimals -/

/-- Embedding of `transformData.roundToDecimals` from responseHandler.js:
`Math.round(value * Math.pow(10, decimals)) / Math.pow(10, decimals)`.
In exact arithmetic `Math.round x = ⌊x + 1/2⌋` (ties go toward positive
infinity). The null/undefined guard of the source cannot fire for a
rational argument and is dropped. -/
def roundToDecimals (value : ℚ) (decimals : ℕ) : ℚ :=
  (⌊value * (10 : ℚ) ^ decimals + 1/2⌋ : ℚ) / (10 : ℚ) ^ decimals

/-- Round-half-away-from-zero on a rational, written from the words of the
spec ("standard rounding, round-half-away-from-zero on the scaled value"),
for comparison against the embedding of the source. -/
def roundHalfAwayFromZero (y : ℚ) : ℤ :=
  if 0 ≤ y then ⌊y + 1/2⌋ else -⌊-y + 1/2⌋

/-- The rounding the spec describes: scale by 10^decimals, round half away
from zero, scale back. -/
def specRoundToDecimals (value : ℚ) (decimals : ℕ) : ℚ :=
  (roundHalfAwayFromZero (value * (10 : ℚ) ^ decimals) : ℚ) / (10 : ℚ) ^ decimals

/-! ## validation.js sanitizeQuery and controller limit defaulting

Both countries routes run the `sanitizeQuery` middleware before the
controller, so the limit that reaches a service is the composition of the
middleware rewrite with the controller line
`parseInt(req.query.limit) || fallback`. The idiom `parseInt(v) || d` is
modelled on an optional integer: `none` stands for a NaN parse, and the
JS `||` replaces both NaN and 0 by the fallback. -/

def jsParseIntOr (v : Option ℤ) (fallback : ℤ) : ℤ :=
  match v with
  | none => fallback
  | some n => if n = 0 then fallback else n

/-- A raw limit query parameter as the Express layer sees it: `absent` is
a missing parameter or an empty string (a falsy string, which the
sanitizing middleware skips); `nan` is a present value that does not
parse to a number; `int n` is a present value parsing to the integer n. -/
inductive LimitParam where
  | absent : LimitParam
  | nan : LimitParam
  | int : ℤ → LimitParam
deriving DecidableEq, Repr

/-- The limit branch of `sanitizeQuery` from the validation middleware: a
falsy (absent or empty) parameter is left untouched, while a present one
is replaced by `parseInt(req.query.limit) || 10`. -/
def sanitizeLimit : LimitParam → LimitParam
  | .absent => .absent
  | .nan => .int (jsParseIntOr none 10)
  | .int n => .int (jsParseIntOr (some n) 10)

/-- The controller line `parseInt(req.query.limit) || fallback` applied to
the (possibly sanitized) query value: a missing or unparsable value and a
zero both give the fallback, anything else passes through. -/
def controllerLimit (fallback : ℤ) : LimitParam → ℤ
  | .absent => fallback
  | .nan => fallback
  | .int n => jsParseIntOr (some n) fallback

/-- The limit that reaches `countriesService.getTopCountriesByRevenue`:
routes/countries.js runs `sanitizeQuery` first, then the controller
applies `parseInt(req.query.limit) || 10`. -/
def topCountriesEffectiveLimit (q : LimitParam) : ℤ :=
  controllerLimit 10 (sanitizeLimit q)

/-- The limit that reaches `countriesService.getRevenueShareByCountry`:
routes/countries.js runs `sanitizeQuery` (middleware fallback 10) first,
then the controller applies `parseInt(req.query.limit) || 8`. -/
def revenueShareEffectiveLimit (q : LimitParam) : ℤ :=
  controllerLimit 8 (sanitizeLimit q)

/-! ## responseHandler.js: successResponse -/

/-- A JSON-like JavaScript value, as far as the response envelope needs it. -/
inductive JsVal where
  | vNull : JsVal
  | vBool : Bool → JsVal
  | vNum : ℚ → JsVal
  | vStr : String → JsVal
  | vArr : List JsVal → JsVal
  | vObj : List (String × JsVal) → JsVal

/-- JavaScript truthiness of a `JsVal`: null, false, 0 and the empty
string are falsy; every array and object (empty or not) is truthy. -/
def truthy : JsVal → Bool
  | .vNull => false
  | .vBool b => b
  | .vNum q => decide (q ≠ 0)
  | .vStr s => decide (s ≠ "")
  | .vArr _ => true
  | .vObj _ => true

/-- The envelope built by `successResponse`: success flag, message, and a
data field that is present or absent. -/
structure SuccessEnvelope where
  success : Bool
  message : String
  data : Option JsVal

/-- Embedding of `successResponse` from responseHandler.js: the object
spread `...(data && \x7b data \x7d)` adds the data key exactly when the
data argument is truthy, and adds it unchanged. -/
def successResponse (message : String) (data : JsVal) : SuccessEnvelope :=
  { success := true
    message := message
    data := if truthy data then some data else none }

/-! ## countriesService.js -/

/-- Total revenue over a country collection:
`allCountries.reduce((sum, c) => sum + (c["Yearly Revenue"] || 0), 0)`. -/
def totalRevenue (l : List Record) : ℚ := (l.map rval).sum

/-- The comparator `(a, b) => (b["Yearly Revenue"] || 0) - (a["Yearly Revenue"] || 0)`
as a boolean order: a sorts no later than b when b has no larger metric. -/
def revDescLE (a b : Record) : Bool := decide (rval b ≤ rval a)

/-- The stable descending sort by the metric
(`allCountries.sort((a, b) => (b["Yearly Revenue"] || 0) - (a["Yearly Revenue"] || 0))`,
resp. the Mongo sort on "Yearly Revenue" descending). -/
def sortByRevDesc (l : List Record) : List Record := l.mergeSort revDescLE

/-- The guarded percentage computation
`total > 0 ? (value / total) * 100 : 0`. -/
def rawPercentage (total v : ℚ) : ℚ := if 0 < total then v / total * 100 else 0

/-- One output row of `getRevenueShareByCountry` (the formatted string
fields carry no further numeric content and are omitted). -/
structure ShareEntry where
  countryName : String
  revenue : ℚ
  percentage : ℚ
deriving DecidableEq, Repr

/-- The row built for one country in `getRevenueShareByCountry`. -/
def shareEntry (total : ℚ) (c : Record) : ShareEntry :=
  { countryName := c.label
    revenue := rval c
    percentage := roundToDecimals (rawPercentage total (rval c)) 2 }

/-- The head of the share output: the first `limit` countries of the
descending sort, mapped to share rows. -/
def headEntries (l : List Record) (limit : ℕ) : List ShareEntry :=
  ((sortByRevDesc l).take limit).map (shareEntry (totalRevenue l))

/-- `allCountries.slice(limit).reduce((sum, c) => sum + (c["Yearly Revenue"] || 0), 0)`
run after the in-place sort, so it sums the tail by sort position. -/
def othersRevenue (l : List Record) (limit : ℕ) : ℚ :=
  (((sortByRevDesc l).drop limit).map rval).sum

/-- The "Others" pseudo-row pushed by `getRevenueShareByCountry`. -/
def othersEntry (l : List Record) (limit : ℕ) : ShareEntry :=
  { countryName := "Others"
    revenue := othersRevenue l limit
    percentage := roundToDecimals (rawPercentage (totalRevenue l) (othersRevenue l limit)) 2 }

/-- Embedding of `countriesService.getRevenueShareByCountry`: head rows for
the top `limit` countries, then the Others row exactly when
`allCountries.length > limit`. -/
def getRevenueShareByCountry (l : List Record) (limit : ℕ) : List ShareEntry :=
  if limit < l.length then headEntries l limit ++ [othersEntry l limit]
  else headEntries l limit

/-- One output row of `getTopCountriesByRevenue` and `getAllCountries`. -/
structure CountryOut where
  countryName : String
  yearlyRevenue : ℚ
deriving DecidableEq, Repr

/-- The row built for one country in `getTopCountriesByRevenue`. -/
def countryOutOf (c : Record) : CountryOut := ⟨c.label, rval c⟩

/-- MongoDB cursor limit semantics: `limit(n)` keeps the first `n`
documents, except that `limit(0)` means no limit and keeps the whole
result set. -/
def mongoLimit (n : ℕ) (l : List α) : List α :=
  if n = 0 then l else l.take n

/-- Embedding of `countriesService.getTopCountriesByRevenue`: sort the
collection descending by "Yearly Revenue", apply the Mongo cursor limit. -/
def getTopCountriesByRevenue (l : List Record) (limit : ℕ) : List CountryOut :=
  (mongoLimit limit (sortByRevDesc l)).map countryOutOf

/-! ## regionsService.js -/

/-- One entry of the regions array in `getRegionsSummary` (the percentage
here is the raw guarded quotient; the source does not round it). -/
structure RegionShare where
  regionName : String
  revenue : ℚ
  percentage : ℚ
deriving DecidableEq, Repr

/-- The summary object returned by `getRegionsSummary`. -/
structure RegionsSummary where
  totalRegions : ℕ
  regionsWithData : ℕ
  totalRevenue : ℚ
  regions : List RegionShare
deriving DecidableEq, Repr

/-- Embedding of `regionsService.getRegionsSummary`. The filter
`region["Yearly Revenue"] !== null` is modelled as the field being
present. -/
def getRegionsSummary (l : List Record) : RegionsSummary :=
  { totalRegions := l.length
    regionsWithData := (l.filter (fun r => !(r.revenue == none))).length
    totalRevenue := totalRevenue l
    regions := l.map (fun r =>
      { regionName := r.label
        revenue := rval r
        percentage := rawPercentage (totalRevenue l) (rval r) }) }

/-! ## revenueService.js / customersService.js: filter-and-paginate -/

/-- The Mongo query built by `getCustomerQuarterlyData` and
`getCustomerAnalysis`, evaluated in memory: the Q4 clause is added only
when `minQ4Revenue > 0`, the variance clause only when
`positiveGrowthOnly` is set. A document whose queried field is missing
does not match a strict clause, which agrees with defaulting the field
to 0. -/
def matchesFilter (minQ4 : ℚ) (growthOnly : Bool) (c : CustomerRec) : Bool :=
  (if 0 < minQ4 then decide (minQ4 ≤ q4val c) else true) &&
  (if growthOnly then decide (0 < varval c) else true)

/-- The Mongo sort on "Variance" descending, as a boolean order. -/
def varDescLE (a b : CustomerRec) : Bool := decide (varval b ≤ varval a)

/-- The Mongo sort on "Quarter 4 Revenue" descending, as a boolean order. -/
def q4DescLE (a b : CustomerRec) : Bool := decide (q4val b ≤ q4val a)

/-- One output row of `getCustomerQuarterlyData` (formatted string fields
omitted). -/
structure CustOut where
  customerName : String
  q3Revenue : ℚ
  q4Revenue : ℚ
  variance : ℚ
  percentageVariance : ℚ
deriving DecidableEq, Repr

/-- The row built for one customer document. -/
def custOutOf (c : CustomerRec) : CustOut :=
  ⟨c.name, q3val c, q4val c, varval c, pctval c⟩

/-- The three-way growth classification used by `getCustomerAnalysis`:
`v > 0 ? "positive" : v < 0 ? "negative" : "neutral"` on the defaulted
variance. -/
def growthStatusOf (c : CustomerRec) : String :=
  if 0 < varval c then "positive" else if varval c < 0 then "negative" else "neutral"

/-- One output row of `getCustomerAnalysis`: the quarterly fields plus the
growth classification. -/
structure AnalysisOut where
  customerName : String
  q3Revenue : ℚ
  q4Revenue : ℚ
  variance : ℚ
  percentageVariance : ℚ
  growthStatus : String
deriving DecidableEq, Repr

/-- The analysis row built for one customer document. -/
def analysisOutOf (c : CustomerRec) : AnalysisOut :=
  ⟨c.name, q3val c, q4val c, varval c, pctval c, growthStatusOf c⟩

/-- `Math.ceil(total / limit)` on naturals, in exact arithmetic. (For
`limit = 0` the source would produce Infinity or NaN; the claims only
concern a positive page size.) -/
def ceilPages (total limit : ℕ) : ℕ :=
  (⌈(total : ℚ) / (limit : ℚ)⌉).toNat

/-- The pagination block built inside the two services. -/
structure ServicePagination where
  currentPage : ℕ
  totalPages : ℕ
  totalItems : ℕ
  itemsPerPage : ℕ
deriving DecidableEq, Repr

/-- The paginated result of `getCustomerQuarterlyData`. -/
structure CustomerPage where
  customers : List CustOut
  pagination : ServicePagination
deriving DecidableEq, Repr

/-- Embedding of `revenueService.getCustomerQuarterlyData`: filter by the
query, count the filtered set, sort it by "Variance" descending, skip
`(page - 1) * limit` documents and take `limit`. -/
def getCustomerQuarterlyData (l : List CustomerRec) (minQ4 : ℚ)
    (growthOnly : Bool) (limit page : ℕ) : CustomerPage :=
  let filtered := l.filter (matchesFilter minQ4 growthOnly)
  let skip := (page - 1) * limit
  let total := filtered.length
  { customers := (((filtered.mergeSort varDescLE).drop skip).take limit).map custOutOf
    pagination := ⟨page, ceilPages total limit, total, limit⟩ }

/-- The paginated result of `getCustomerAnalysis` (the echoed filters add
no numeric content and are omitted). -/
structure AnalysisPage where
  customers : List AnalysisOut
  pagination : ServicePagination
deriving DecidableEq, Repr

/-- Embedding of `customersService.getCustomerAnalysis`: same filter and
pagination as the quarterly report, but sorted by "Quarter 4 Revenue"
descending and carrying the growth classification. -/
def getCustomerAnalysis (l : List CustomerRec) (minQ4 : ℚ)
    (growthOnly : Bool) (limit page : ℕ) : AnalysisPage :=
  let filtered := l.filter (matchesFilter minQ4 growthOnly)
  let skip := (page - 1) * limit
  let total := filtered.length
  { customers := (((filtered.mergeSort q4DescLE).drop skip).take limit).map analysisOutOf
    pagination := ⟨page, ceilPages total limit, total, limit⟩ }

/-! ## responseHandler.js: paginatedResponse -/

/-- The pagination block of the paginated JSON envelope. -/
structure PaginationInfo where
  currentPage : ℕ
  totalPages : ℕ
  totalItems : ℕ
  itemsPerPage : ℕ
  hasNextPage : Bool
  hasPrevPage : Bool
  nextPage : Option ℕ
  prevPage : Option ℕ
deriving DecidableEq, Repr

/-- Embedding of `paginatedResponse` from responseHandler.js:
`totalPages = Math.ceil(total / limit)`, `hasNextPage = page < totalPages`,
`hasPrevPage = page > 1`, and next/prev page numbers or null at the
boundaries. -/
def paginatedResponse (page limit total : ℕ) : PaginationInfo :=
  let totalPages := ceilPages total limit
  let hasNext := decide (page < totalPages)
  let hasPrev := decide (1 < page)
  { currentPage := page
    totalPages := totalPages
    totalItems := total
    itemsPerPage := limit
    hasNextPage := hasNext
    hasPrevPage := hasPrev
    nextPage := if hasNext then some (page + 1) else none
    prevPage := if hasPrev then some (page - 1) else none }

/-! ## customersService.js: getCustomerStatistics -/

/-- The statistics object returned by `getCustomerStatistics` (formatted
string fields omitted). -/
structure CustomerStats where
  totalCustomers : ℕ
  customersWithGrowth : ℕ
  customersWithDecline : ℕ
  customersNoChange : ℕ
  growthPercentage : ℚ
  declinePercentage : ℚ
  noChangePercentage : ℚ
  totalQ3Revenue : ℚ
  totalQ4Revenue : ℚ
deriving DecidableEq, Repr

/-- Embedding of `customersService.getCustomerStatistics`: classify every
customer by the sign of the defaulted variance, and divide each class
count by the total count when that count is positive. -/
def getCustomerStatistics (l : List CustomerRec) : CustomerStats :=
  let n := l.length
  let g := (l.filter (fun c => decide (0 < varval c))).length
  let d := (l.filter (fun c => decide (varval c < 0))).length
  let z := (l.filter (fun c => decide (varval c = 0))).length
  { totalCustomers := n
    customersWithGrowth := g
    customersWithDecline := d
    customersNoChange := z
    growthPercentage := if 0 < n then (g : ℚ) / (n : ℚ) * 100 else 0
    declinePercentage := if 0 < n then (d : ℚ) / (n : ℚ) * 100 else 0
    noChangePercentage := if 0 < n then (z : ℚ) / (n : ℚ) * 100 else 0
    totalQ3Revenue := (l.map q3val).sum
    totalQ4Revenue := (l.map q4val).sum }

/-! # Theorems -/

/-- Claim C4 counterexample: `roundToDecimals` does not round half away
from zero on negative values. At the negative value -1/200 = -0.005 the
scaled value is -1/2, whose fractional part is exactly one half; the code
returns 0 while round-half-away-from-zero returns -1/100 = -0.01. -/
theorem roundToDecimals_not_half_away_from_zero :
    roundToDecimals (-(1/200)) 2 = 0 ∧
    specRoundToDecimals (-(1/200)) 2 = -(1/100) ∧
    roundToDecimals (-(1/200)) 2 ≠ specRoundToDecimals (-(1/200)) 2 := by
  have h1 : roundToDecimals (-(1/200)) 2 = 0 := by
    have : (-(1/200) : ℚ) * (10 : ℚ) ^ 2 + 1/2 = 0 := by norm_num
    simp only [roundToDecimals, this]
    norm_num
  have h2 : specRoundToDecimals (-(1/200)) 2 = -(1/100) := by
    have hneg : ¬ (0 : ℚ) ≤ (-(1/200) : ℚ) * (10 : ℚ) ^ 2 := by norm_num
    have hfl : ⌊-((-(1/200) : ℚ) * (10 : ℚ) ^ 2) + 1/2⌋ = 1 := by
      have : -((-(1/200) : ℚ) * (10 : ℚ) ^ 2) + 1/2 = 1 := by norm_num
      rw [this]
      exact Int.floor_one
    simp only [specRoundToDecimals, roundHalfAwayFromZero, if_neg hneg, hfl]
    norm_num
  refine ⟨h1, h2, ?_⟩
  rw [h1, h2]
  norm_num

/-- Claim C4 (amended): `roundToDecimals` with 2 decimals rounds the value
scaled by 100 to the nearest integer with ties toward positive infinity
(round-half-up): it agrees with round-half-away-from-zero on every
nonnegative value, and a scaled value that is exactly an integer plus one
half always rounds up to the next integer, regardless of sign. -/
theorem roundToDecimals_half_up (x : ℚ) :
    (0 ≤ x → roundToDecimals x 2 = specRoundToDecimals x 2) ∧
    (∀ n : ℤ, roundToDecimals (((2 * n + 1 : ℤ) : ℚ) / 200) 2
        = (((n + 1 : ℤ) : ℚ)) / 100) := by
  constructor
  · intro hx
    have hnn : (0 : ℚ) ≤ x * (10 : ℚ) ^ 2 := by positivity
    simp only [roundToDecimals, specRoundToDecimals, roundHalfAwayFromZero,
      if_pos hnn]
  · intro n
    have hs : (((2 * n + 1 : ℤ) : ℚ) / 200) * (10 : ℚ) ^ 2 + 1/2
        = ((n + 1 : ℤ) : ℚ) := by
      push_cast
      ring
    simp only [roundToDecimals, hs, Int.floor_intCast]
    norm_num

/-- Witness for the amended claim C4 at the concrete input 3. -/
theorem roundToDecimals_half_up_witness :
    (0 : ℚ) ≤ 3 ∧ roundToDecimals 3 2 = specRoundToDecimals 3 2 :=
  ⟨by norm_num, (roundToDecimals_half_up 3).1 (by norm_num)⟩

/-- Claim C9 counterexample: a negative limit query input passes through
the sanitizing middleware and the controller defaulting unchanged, so the
effective limit received by the ranking and share operations can be
negative, contradicting the claim that it is never zero or negative. At
input -5 both countries endpoints pass -5 to their service. -/
theorem effectiveLimit_negative_input_passes_through :
    topCountriesEffectiveLimit (LimitParam.int (-5)) = -5 ∧
    revenueShareEffectiveLimit (LimitParam.int (-5)) = -5 ∧
    topCountriesEffectiveLimit (LimitParam.int (-5)) < 0 := by
  refine ⟨by decide, by decide, by decide⟩

/-- Claim C9 (amended): a missing (or empty) limit parameter receives the
controller fallback, 10 for top countries and 8 for revenue share; a
present parameter that parses to NaN or to 0 is rewritten to 10 by the
sanitizeQuery middleware before either controller runs, so both endpoints
then receive 10; every other nonzero parsed integer, including a negative
one, is passed through unchanged, so the effective limit can be
negative. -/
theorem effectiveLimit_defaulting (q : LimitParam) :
    (q = LimitParam.absent → topCountriesEffectiveLimit q = 10 ∧
      revenueShareEffectiveLimit q = 8) ∧
    (q = LimitParam.nan → topCountriesEffectiveLimit q = 10 ∧
      revenueShareEffectiveLimit q = 10) ∧
    (q = LimitParam.int 0 → topCountriesEffectiveLimit q = 10 ∧
      revenueShareEffectiveLimit q = 10) ∧
    (∀ n : ℤ, q = LimitParam.int n → n ≠ 0 →
      topCountriesEffectiveLimit q = n ∧ revenueShareEffectiveLimit q = n) ∧
    (0 : ℤ) < 10 ∧ (0 : ℤ) < 8 := by
  refine ⟨?_, ?_, ?_, ?_, by decide, by decide⟩
  · rintro rfl
    exact ⟨by decide, by decide⟩
  · rintro rfl
    exact ⟨by decide, by decide⟩
  · rintro rfl
    exact ⟨by decide, by decide⟩
  · rintro n rfl hn
    constructor <;>
      simp [topCountriesEffectiveLimit, revenueShareEffectiveLimit,
        controllerLimit, sanitizeLimit, jsParseIntOr, hn]

/-- Witness for the amended claim C9 at a missing input. -/
theorem effectiveLimit_defaulting_witness :
    topCountriesEffectiveLimit LimitParam.absent = 10 ∧
    revenueShareEffectiveLimit LimitParam.absent = 8 :=
  (effectiveLimit_defaulting LimitParam.absent).1 rfl

/-- Claim C10: the success envelope contains the data field exactly when
the data argument is truthy; when present the data is included unchanged;
null, 0, false and the empty string are omitted, while an empty array and
an empty object are included. -/
theorem successResponse_data_iff_truthy (m : String) (d : JsVal) :
    ((successResponse m d).data = some d ↔ truthy d = true) ∧
    ((successResponse m d).data = none ↔ truthy d = false) ∧
    (successResponse m JsVal.vNull).data = none ∧
    (successResponse m (JsVal.vNum 0)).data = none ∧
    (successResponse m (JsVal.vBool false)).data = none ∧
    (successResponse m (JsVal.vStr "")).data = none ∧
    (successResponse m (JsVal.vArr [])).data = some (JsVal.vArr []) ∧
    (successResponse m (JsVal.vObj [])).data = some (JsVal.vObj []) ∧
    (successResponse m d).success = true ∧
    (successResponse m d).message = m := by
  refine ⟨?_, ?_, by simp [successResponse, truthy], by simp [successResponse, truthy],
    by simp [successResponse, truthy], by simp [successResponse, truthy],
    by simp [successResponse, truthy], by simp [successResponse, truthy], rfl, rfl⟩
  · constructor
    · intro h
      by_contra hf
      have : truthy d = false := by
        cases htd : truthy d
        · rfl
        · exact absurd htd hf
      simp [successResponse, this] at h
    · intro h
      simp [successResponse, h]
  · constructor
    · intro h
      cases htd : truthy d
      · rfl
      · simp [successResponse, htd] at h
    · intro h
      simp [successResponse, h]

/-! ## Helper lemmas about the descending sort and rounding -/

/-- The descending sort permutes its input. -/
theorem sortByRevDesc_perm (l : List Record) : List.Perm (sortByRevDesc l) l :=
  List.mergeSort_perm l revDescLE

/-- Sorting does not change the revenue total. -/
theorem sum_rval_sortByRevDesc (l : List Record) :
    ((sortByRevDesc l).map rval).sum = totalRevenue l :=
  ((sortByRevDesc_perm l).map rval).sum_eq

/-- The head sum and the Others sum partition the total. -/
theorem headSum_add_othersRevenue (l : List Record) (k : ℕ) :
    (((sortByRevDesc l).take k).map rval).sum + othersRevenue l k = totalRevenue l := by
  rw [othersRevenue, ← List.sum_append, ← List.map_append, List.take_append_drop,
    sum_rval_sortByRevDesc]

/-- Rounding to 2 decimals moves a value by at most 1/200. -/
theorem abs_roundToDecimals_sub_le (x : ℚ) :
    |roundToDecimals x 2 - x| ≤ 1/200 := by
  have h1 : (⌊x * (10 : ℚ) ^ 2 + 1/2⌋ : ℚ) ≤ x * (10 : ℚ) ^ 2 + 1/2 :=
    Int.floor_le _
  have h2 : x * (10 : ℚ) ^ 2 + 1/2 - 1 < (⌊x * (10 : ℚ) ^ 2 + 1/2⌋ : ℚ) :=
    Int.sub_one_lt_floor _
  rw [roundToDecimals, abs_le]
  have hp : ((10 : ℚ) ^ 2) = 100 := by norm_num
  rw [hp] at h1 h2 ⊢
  constructor
  · linarith
  · linarith

/-- Rounding each element of a list moves the sum by at most 1/200 per
element. -/
theorem abs_sum_roundToDecimals (xs : List ℚ) :
    |(xs.map (fun x => roundToDecimals x 2)).sum - xs.sum|
      ≤ (xs.length : ℚ) * (1/200) := by
  induction xs with
  | nil => simp
  | cons a t ih =>
    simp only [List.map_cons, List.sum_cons, List.length_cons]
    have key : roundToDecimals a 2 + (t.map (fun x => roundToDecimals x 2)).sum
        - (a + t.sum)
        = (roundToDecimals a 2 - a)
          + ((t.map (fun x => roundToDecimals x 2)).sum - t.sum) := by ring
    rw [key]
    have htri := abs_add (roundToDecimals a 2 - a)
      ((t.map (fun x => roundToDecimals x 2)).sum - t.sum)
    have hr := abs_roundToDecimals_sub_le a
    push_cast
    linarith

/-- Summing quotients against a fixed denominator factors out. -/
theorem sum_map_div_mul (xs : List ℚ) (t : ℚ) :
    (xs.map (fun v => v / t * 100)).sum = xs.sum / t * 100 := by
  induction xs with
  | nil => simp
  | cons a l ih =>
    simp only [List.map_cons, List.sum_cons, ih]
    ring

/-- Rounding zero gives zero. -/
theorem roundToDecimals_zero : roundToDecimals 0 2 = 0 := by
  have : (0 : ℚ) * (10 : ℚ) ^ 2 + 1/2 = 1/2 := by norm_num
  rw [roundToDecimals, this]
  have hfl : ⌊(1/2 : ℚ)⌋ = 0 := by
    rw [Int.floor_eq_zero_iff]
    constructor <;> norm_num
  rw [hfl]
  norm_num

/-- Claim C5 counterexample: the min-length law fails at limit 0. The Mongo
cursor limit treats 0 as no limit, so the program returns the whole sorted
collection: on a one-record collection with limit 0 the output has length
1, not min 0 1 = 0. -/
theorem topCountries_limit_zero_counterexample :
    (getTopCountriesByRevenue [Record.mk "A" (some 1)] 0).length = 1 ∧
    min 0 ([Record.mk "A" (some 1)] : List Record).length = 0 ∧
    (getTopCountriesByRevenue [Record.mk "A" (some 1)] 0).length
      ≠ min 0 ([Record.mk "A" (some 1)] : List Record).length := by
  have h1 : (getTopCountriesByRevenue [Record.mk "A" (some 1)] 0).length = 1 := by
    simp [getTopCountriesByRevenue, mongoLimit, sortByRevDesc]
  refine ⟨h1, by decide, ?_⟩
  rw [h1]
  decide

/-- Claim C5 (amended): for every positive limit the ranking operation
returns exactly min(limit, input length) records, namely the prefix of
length `limit` of the descending stable sort of the full input (which is
a permutation of the input), the output is pairwise descending by the
metric with a missing metric read as 0, and a limit reaching or exceeding
the input size returns the whole sorted set with no error; at limit 0 the
Mongo cursor limit means no limit, and the whole sorted set is returned
as well. -/
theorem topCountries_ranking (l : List Record) (limit : ℕ) :
    (1 ≤ limit →
      (getTopCountriesByRevenue l limit).length = min limit l.length ∧
      getTopCountriesByRevenue l limit
        = ((sortByRevDesc l).map countryOutOf).take limit ∧
      (l.length ≤ limit →
        getTopCountriesByRevenue l limit = (sortByRevDesc l).map countryOutOf)) ∧
    List.Pairwise (fun a b => b.yearlyRevenue ≤ a.yearlyRevenue)
      (getTopCountriesByRevenue l limit) ∧
    List.Perm (sortByRevDesc l) l ∧
    getTopCountriesByRevenue l 0 = (sortByRevDesc l).map countryOutOf := by
  have hlen : (sortByRevDesc l).length = l.length :=
    (sortByRevDesc_perm l).length_eq
  have htrans : ∀ a b c : Record,
      revDescLE a b → revDescLE b c → revDescLE a c := by
    intro a b c hab hbc
    simp only [revDescLE, decide_eq_true_eq] at *
    exact le_trans hbc hab
  have htotal : ∀ a b : Record, revDescLE a b || revDescLE b a := by
    intro a b
    simp only [revDescLE, Bool.or_eq_true, decide_eq_true_eq]
    exact le_total (rval b) (rval a)
  have hsorted : (sortByRevDesc l).Pairwise (fun a b => revDescLE a b = true) :=
    List.sorted_mergeSort htrans htotal l
  have hsorted' : (sortByRevDesc l).Pairwise (fun a b => rval b ≤ rval a) :=
    hsorted.imp (by
      intro a b hab
      simpa [revDescLE] using hab)
  refine ⟨?_, ?_, sortByRevDesc_perm l, ?_⟩
  · intro hl
    have hne : limit ≠ 0 := Nat.pos_iff_ne_zero.mp hl
    refine ⟨?_, ?_, ?_⟩
    · simp [getTopCountriesByRevenue, mongoLimit, hne, List.length_take, hlen]
    · simp [getTopCountriesByRevenue, mongoLimit, hne, List.map_take]
    · intro hle
      rw [getTopCountriesByRevenue, mongoLimit, if_neg hne,
        List.take_of_length_le (by rw [hlen]; exact hle)]
  · have hsub : List.Sublist (mongoLimit limit (sortByRevDesc l)) (sortByRevDesc l) := by
      rw [mongoLimit]
      by_cases h0 : limit = 0
      · rw [if_pos h0]
      · rw [if_neg h0]
        exact List.take_sublist _ _
    exact ((hsorted'.sublist hsub).map countryOutOf (fun a b hab => hab))
  · rw [getTopCountriesByRevenue, mongoLimit, if_pos rfl]

/-- Witness for the amended claim C5 at a two-record input and limit 5. -/
theorem topCountries_ranking_witness :
    1 ≤ 5 ∧
    (getTopCountriesByRevenue
        [Record.mk "A" (some 1), Record.mk "B" (some 3)] 5).length
      = min 5 [Record.mk "A" (some 1), Record.mk "B" (some 3)].length :=
  ⟨by norm_num,
    ((topCountries_ranking [Record.mk "A" (some 1), Record.mk "B" (some 3)] 5).1
      (by norm_num)).1⟩

/-- Claim C2: the share computation emits the Others entry exactly when the
record count exceeds the limit; when emitted it is the last entry, its
label is the fixed string Others, and its value is the metric total minus
the head sum, i.e. the sum of the metric over the records not selected
into the head by sort position; when the limit reaches or exceeds the
record count the output consists of the head entries alone. -/
theorem revenueShare_others_bucket (l : List Record) (limit : ℕ) :
    (limit < l.length →
      getRevenueShareByCountry l limit
          = headEntries l limit ++ [othersEntry l limit] ∧
      (getRevenueShareByCountry l limit).getLast? = some (othersEntry l limit) ∧
      (othersEntry l limit).countryName = "Others" ∧
      (othersEntry l limit).revenue
          = totalRevenue l - (((sortByRevDesc l).take limit).map rval).sum ∧
      (getRevenueShareByCountry l limit).length = limit + 1) ∧
    (l.length ≤ limit →
      getRevenueShareByCountry l limit = headEntries l limit ∧
      (getRevenueShareByCountry l limit).length = l.length) := by
  have hlen : (sortByRevDesc l).length = l.length :=
    (sortByRevDesc_perm l).length_eq
  constructor
  · intro hlim
    have hout : getRevenueShareByCountry l limit
        = headEntries l limit ++ [othersEntry l limit] := by
      rw [getRevenueShareByCountry, if_pos hlim]
    refine ⟨hout, ?_, rfl, ?_, ?_⟩
    · rw [hout]
      exact List.getLast?_concat _
    · have := headSum_add_othersRevenue l limit
      show othersRevenue l limit = _
      linarith
    · rw [hout, List.length_append, headEntries, List.length_map,
        List.length_take, hlen]
      simp [Nat.min_eq_left (le_of_lt hlim)]
  · intro hle
    have hout : getRevenueShareByCountry l limit = headEntries l limit := by
      rw [getRevenueShareByCountry, if_neg (not_lt.mpr hle)]
    refine ⟨hout, ?_⟩
    rw [hout, headEntries, List.length_map, List.length_take, hlen]
    exact Nat.min_eq_right hle

/-- Witness for claim C2 at a two-record input and limit 1. -/
theorem revenueShare_others_bucket_witness :
    1 < [Record.mk "A" (some 1), Record.mk "B" (some 3)].length ∧
    getRevenueShareByCountry [Record.mk "A" (some 1), Record.mk "B" (some 3)] 1
      = headEntries [Record.mk "A" (some 1), Record.mk "B" (some 3)] 1
        ++ [othersEntry [Record.mk "A" (some 1), Record.mk "B" (some 3)] 1] :=
  ⟨by simp,
    ((revenueShare_others_bucket [Record.mk "A" (some 1), Record.mk "B" (some 3)] 1).1
      (by simp)).1⟩

/-- The sum of the unrounded percentages carried by the share output is
exactly 100 whenever the total is positive. -/
theorem rawPercentage_sum_eq_100 (l : List Record) (limit : ℕ)
    (h : 0 < totalRevenue l) :
    ((((sortByRevDesc l).take limit).map
        (fun c => rawPercentage (totalRevenue l) (rval c))).sum
      + (if limit < l.length
          then rawPercentage (totalRevenue l) (othersRevenue l limit) else 0))
      = 100 := by
  have hT : totalRevenue l ≠ 0 := ne_of_gt h
  have hhead : (((sortByRevDesc l).take limit).map
      (fun c => rawPercentage (totalRevenue l) (rval c))).sum
      = (((sortByRevDesc l).take limit).map rval).sum / totalRevenue l * 100 := by
    simp only [rawPercentage, if_pos h]
    rw [← sum_map_div_mul ((((sortByRevDesc l).take limit)).map rval) (totalRevenue l),
      List.map_map]
    rfl
  by_cases hlim : limit < l.length
  · rw [if_pos hlim, hhead]
    simp only [rawPercentage, if_pos h]
    have hx := headSum_add_othersRevenue l limit
    rw [List.map_take] at hx
    field_simp
    linear_combination (100 : ℚ) * hx
  · rw [if_neg hlim, hhead, add_zero]
    have hle : (sortByRevDesc l).length ≤ limit := by
      rw [(sortByRevDesc_perm l).length_eq]
      exact not_lt.mp hlim
    rw [List.take_of_length_le hle, sum_rval_sortByRevDesc]
    field_simp

/-- Claim C1: when the metric total is strictly positive, the percentages
of the share output (head entries plus the Others entry when present) sum
to 100 within 0.01 per entry times the number of entries. -/
theorem revenueShare_percentages_sum_near_100 (l : List Record) (limit : ℕ)
    (h : 0 < totalRevenue l) :
    |((getRevenueShareByCountry l limit).map ShareEntry.percentage).sum - 100|
      ≤ ((getRevenueShareByCountry l limit).length : ℚ) * (1/100) := by
  classical
  set rs : List ℚ :=
    (((sortByRevDesc l).take limit).map
        (fun c => rawPercentage (totalRevenue l) (rval c)))
      ++ (if limit < l.length
          then [rawPercentage (totalRevenue l) (othersRevenue l limit)] else [])
    with hrs
  have hmap : (getRevenueShareByCountry l limit).map ShareEntry.percentage
      = rs.map (fun x => roundToDecimals x 2) := by
    by_cases hlim : limit < l.length
    · simp only [getRevenueShareByCountry, if_pos hlim, hrs,
        headEntries, List.map_append, List.map_map]
      rfl
    · simp only [getRevenueShareByCountry, if_neg hlim, hrs,
        headEntries, List.map_append, List.map_map, List.map_nil,
        List.append_nil]
      rfl
  have hlen : (getRevenueShareByCountry l limit).length = rs.length := by
    have := congrArg List.length hmap
    simpa using this
  have hsum : rs.sum = 100 := by
    rw [hrs, List.sum_append]
    by_cases hlim : limit < l.length
    · rw [if_pos hlim]
      have := rawPercentage_sum_eq_100 l limit h
      rw [if_pos hlim] at this
      simpa using this
    · rw [if_neg hlim]
      have := rawPercentage_sum_eq_100 l limit h
      rw [if_neg hlim] at this
      simpa using this
  have habs := abs_sum_roundToDecimals rs
  rw [hsum] at habs
  rw [hmap, hlen]
  have hmono : (rs.length : ℚ) * (1/200) ≤ (rs.length : ℚ) * (1/100) := by
    apply mul_le_mul_of_nonneg_left (by norm_num) (by positivity)
  linarith [habs, hmono]

/-- Witness for claim C1 at a single record of revenue 100 and limit 1. -/
theorem revenueShare_percentages_sum_near_100_witness :
    0 < totalRevenue [Record.mk "A" (some 100)] ∧
    |((getRevenueShareByCountry [Record.mk "A" (some 100)] 1).map
        ShareEntry.percentage).sum - 100|
      ≤ ((getRevenueShareByCountry [Record.mk "A" (some 100)] 1).length : ℚ)
          * (1/100) :=
  ⟨by norm_num [totalRevenue, rval],
    revenueShare_percentages_sum_near_100 [Record.mk "A" (some 100)] 1
      (by norm_num [totalRevenue, rval])⟩

/-- Claim C3: every guarded percentage computation yields exactly 0 when
its total is 0 (no division-by-zero artifact): when the revenue total is
0 every percentage in the share output (head entries and the Others
entry) is 0; when the regions revenue total is 0 every regions-summary
percentage is 0; and the customer-statistics percentages, whose
denominator is the customer count, are all 0 on the empty collection. -/
theorem zero_total_zero_percentages (lc : List Record) (limit : ℕ)
    (lr : List Record) (lcu : List CustomerRec) :
    (totalRevenue lc = 0 →
      ∀ e ∈ getRevenueShareByCountry lc limit, e.percentage = 0) ∧
    (totalRevenue lr = 0 →
      ∀ e ∈ (getRegionsSummary lr).regions, e.percentage = 0) ∧
    (lcu = [] →
      (getCustomerStatistics lcu).growthPercentage = 0 ∧
      (getCustomerStatistics lcu).declinePercentage = 0 ∧
      (getCustomerStatistics lcu).noChangePercentage = 0) := by
  refine ⟨?_, ?_, ?_⟩
  · intro h0 e he
    have hraw : ∀ v : ℚ, rawPercentage (totalRevenue lc) v = 0 := by
      intro v
      rw [rawPercentage, h0]
      simp
    rw [getRevenueShareByCountry] at he
    by_cases hlim : limit < lc.length
    · rw [if_pos hlim] at he
      rcases List.mem_append.mp he with hh | ho
      · rcases List.mem_map.mp hh with ⟨c, _, rfl⟩
        simp [shareEntry, hraw, roundToDecimals_zero]
      · rcases List.mem_singleton.mp ho with rfl
        simp [othersEntry, hraw, roundToDecimals_zero]
    · rw [if_neg hlim] at he
      rcases List.mem_map.mp he with ⟨c, _, rfl⟩
      simp [shareEntry, hraw, roundToDecimals_zero]
  · intro h0 e he
    rcases List.mem_map.mp he with ⟨r, _, rfl⟩
    simp only [rawPercentage, h0]
    simp
  · intro h0
    subst h0
    simp [getCustomerStatistics]

/-- Witness for claim C3 at a zero-revenue record, an empty region list and
an empty customer list. -/
theorem zero_total_zero_percentages_witness :
    totalRevenue [Record.mk "A" (some 0)] = 0 ∧
    (othersEntry [Record.mk "A" (some 0)] 0).percentage = 0 ∧
    (getCustomerStatistics ([] : List CustomerRec)).growthPercentage = 0 :=
  ⟨by simp [totalRevenue, rval],
    (zero_total_zero_percentages [Record.mk "A" (some 0)] 0 [] []).1
      (by simp [totalRevenue, rval]) _
      (by simp [getRevenueShareByCountry, headEntries, sortByRevDesc]),
    ((zero_total_zero_percentages [Record.mk "A" (some 0)] 0 [] []).2.2 rfl).1⟩

/-- The Mongo query matches a customer exactly when the filter predicate of
the spec holds: the Q4 threshold is vacuous when it is not positive, and
the variance clause applies only under the growth-only flag. -/
theorem matchesFilter_iff (minQ4 : ℚ) (growthOnly : Bool) (c : CustomerRec) :
    matchesFilter minQ4 growthOnly c = true ↔
      ((minQ4 ≤ 0 ∨ minQ4 ≤ q4val c) ∧ (growthOnly = false ∨ 0 < varval c)) := by
  cases growthOnly
  · rcases lt_or_le 0 minQ4 with hm | hm
    · simp [matchesFilter, hm, hm.not_le]
    · simp [matchesFilter, not_lt.mpr hm, hm]
  · rcases lt_or_le 0 minQ4 with hm | hm
    · simp [matchesFilter, hm, hm.not_le]
    · simp [matchesFilter, not_lt.mpr hm, hm]

/-- Claim C6: every record returned by either filter-and-paginate
operation satisfies the filter predicate, and the reported totalItems
equals the number of records of the full input satisfying the predicate,
whatever page and page size were requested. -/
theorem filterPaginate_pred_and_total (l : List CustomerRec) (minQ4 : ℚ)
    (growthOnly : Bool) (limit page : ℕ) :
    (∀ c ∈ (getCustomerQuarterlyData l minQ4 growthOnly limit page).customers,
      (minQ4 ≤ 0 ∨ minQ4 ≤ c.q4Revenue) ∧ (growthOnly = false ∨ 0 < c.variance)) ∧
    (getCustomerQuarterlyData l minQ4 growthOnly limit page).pagination.totalItems
      = (l.filter (fun c =>
          decide ((minQ4 ≤ 0 ∨ minQ4 ≤ q4val c) ∧
            (growthOnly = false ∨ 0 < varval c)))).length ∧
    (∀ c ∈ (getCustomerAnalysis l minQ4 growthOnly limit page).customers,
      (minQ4 ≤ 0 ∨ minQ4 ≤ c.q4Revenue) ∧ (growthOnly = false ∨ 0 < c.variance)) ∧
    (getCustomerAnalysis l minQ4 growthOnly limit page).pagination.totalItems
      = (l.filter (fun c =>
          decide ((minQ4 ≤ 0 ∨ minQ4 ≤ q4val c) ∧
            (growthOnly = false ∨ 0 < varval c)))).length := by
  have hfeq : l.filter (matchesFilter minQ4 growthOnly)
      = l.filter (fun c =>
          decide ((minQ4 ≤ 0 ∨ minQ4 ≤ q4val c) ∧
            (growthOnly = false ∨ 0 < varval c))) := by
    apply List.filter_congr
    intro c _
    rw [Bool.eq_iff_iff, matchesFilter_iff, decide_eq_true_eq]
  refine ⟨?_, ?_, ?_, ?_⟩
  · intro c hc
    simp only [getCustomerQuarterlyData] at hc
    rcases List.mem_map.mp hc with ⟨r, hr, rfl⟩
    have hrf : r ∈ l.filter (matchesFilter minQ4 growthOnly) :=
      List.mem_mergeSort.mp
        (List.drop_subset _ _ (List.take_subset _ _ hr))
    have hmatch := (List.mem_filter.mp hrf).2
    exact (matchesFilter_iff minQ4 growthOnly r).mp hmatch
  · simp only [getCustomerQuarterlyData, hfeq]
  · intro c hc
    simp only [getCustomerAnalysis] at hc
    rcases List.mem_map.mp hc with ⟨r, hr, rfl⟩
    have hrf : r ∈ l.filter (matchesFilter minQ4 growthOnly) :=
      List.mem_mergeSort.mp
        (List.drop_subset _ _ (List.take_subset _ _ hr))
    have hmatch := (List.mem_filter.mp hrf).2
    exact (matchesFilter_iff minQ4 growthOnly r).mp hmatch
  · simp only [getCustomerAnalysis, hfeq]

/-- Witness for claim C6 at a one-customer input passing both filters. -/
theorem filterPaginate_pred_and_total_witness :
    custOutOf (CustomerRec.mk "X" (some 1) (some 2) (some 1) none)
        ∈ (getCustomerQuarterlyData
            [CustomerRec.mk "X" (some 1) (some 2) (some 1) none] 1 true 5 1).customers ∧
    ((1 : ℚ) ≤ 0 ∨ (1 : ℚ) ≤
        (custOutOf (CustomerRec.mk "X" (some 1) (some 2) (some 1) none)).q4Revenue) ∧
    (true = false ∨ 0 <
        (custOutOf (CustomerRec.mk "X" (some 1) (some 2) (some 1) none)).variance) :=
  have hmem : custOutOf (CustomerRec.mk "X" (some 1) (some 2) (some 1) none)
      ∈ (getCustomerQuarterlyData
          [CustomerRec.mk "X" (some 1) (some 2) (some 1) none] 1 true 5 1).customers := by
    simp [getCustomerQuarterlyData, matchesFilter, q4val, varval]
  ⟨hmem,
    (filterPaginate_pred_and_total
      [CustomerRec.mk "X" (some 1) (some 2) (some 1) none] 1 true 5 1).1 _ hmem⟩

/-- The page count covers the whole item count: total ≤ totalPages times
the page size, for a positive page size. -/
theorem le_ceilPages_mul (total limit : ℕ) (hl : 1 ≤ limit) :
    total ≤ ceilPages total limit * limit := by
  have hsQ : (0 : ℚ) < (limit : ℚ) := by exact_mod_cast hl
  have h1 : ((total : ℚ) / (limit : ℚ)) ≤ (⌈(total : ℚ) / (limit : ℚ)⌉ : ℚ) :=
    Int.le_ceil _
  have h0 : (0 : ℤ) ≤ ⌈(total : ℚ) / (limit : ℚ)⌉ :=
    Int.ceil_nonneg (by positivity)
  have h2 : (total : ℚ) ≤ (⌈(total : ℚ) / (limit : ℚ)⌉ : ℚ) * (limit : ℚ) := by
    rw [div_le_iff₀ hsQ] at h1
    exact h1
  have hcast : ((ceilPages total limit : ℕ) : ℚ)
      = (⌈(total : ℚ) / (limit : ℚ)⌉ : ℚ) := by
    rw [ceilPages]
    exact_mod_cast congrArg (fun z : ℤ => (z : ℚ)) (Int.toNat_of_nonneg h0)
  have h3 : (total : ℚ) ≤ ((ceilPages total limit : ℕ) : ℚ) * (limit : ℚ) := by
    rw [hcast]
    exact h2
  exact_mod_cast h3

/-- Claim C7: requesting a page strictly beyond the last page yields an
empty record list, and the pagination envelope then reports
hasNextPage = false and nextPage = null; in general the envelope reports
totalPages as the ceiling of totalItems over the page size,
hasNextPage exactly when the page is below totalPages, hasPrevPage
exactly when the page is above 1, and prev page number or null at the
boundary. -/
theorem pagination_beyond_last_page (l : List CustomerRec) (minQ4 : ℚ)
    (growthOnly : Bool) (limit page : ℕ) (hl : 1 ≤ limit)
    (hp : ceilPages (l.filter (matchesFilter minQ4 growthOnly)).length limit < page) :
    (getCustomerQuarterlyData l minQ4 growthOnly limit page).customers = [] ∧
    (paginatedResponse page limit
        (l.filter (matchesFilter minQ4 growthOnly)).length).hasNextPage = false ∧
    (paginatedResponse page limit
        (l.filter (matchesFilter minQ4 growthOnly)).length).nextPage = none ∧
    (paginatedResponse page limit
        (l.filter (matchesFilter minQ4 growthOnly)).length).totalPages
      = ceilPages (l.filter (matchesFilter minQ4 growthOnly)).length limit ∧
    ((paginatedResponse page limit
        (l.filter (matchesFilter minQ4 growthOnly)).length).hasPrevPage = true
      ↔ 1 < page) ∧
    (paginatedResponse page limit
        (l.filter (matchesFilter minQ4 growthOnly)).length).prevPage
      = (if 1 < page then some (page - 1) else none) ∧
    ((paginatedResponse page limit
        (l.filter (matchesFilter minQ4 growthOnly)).length).hasNextPage = true
      ↔ page < ceilPages (l.filter (matchesFilter minQ4 growthOnly)).length limit) := by
  have hnotlt : ¬ page < ceilPages (l.filter (matchesFilter minQ4 growthOnly)).length limit :=
    Nat.lt_asymm hp
  refine ⟨?_, ?_, ?_, rfl, ?_, ?_, ?_⟩
  · have hskip : (l.filter (matchesFilter minQ4 growthOnly)).length
        ≤ (page - 1) * limit := by
      have h1 : ceilPages (l.filter (matchesFilter minQ4 growthOnly)).length limit
          ≤ page - 1 := by omega
      calc (l.filter (matchesFilter minQ4 growthOnly)).length
          ≤ ceilPages (l.filter (matchesFilter minQ4 growthOnly)).length limit * limit :=
            le_ceilPages_mul _ _ hl
        _ ≤ (page - 1) * limit := Nat.mul_le_mul_right _ h1
    simp only [getCustomerQuarterlyData]
    rw [List.drop_eq_nil_of_le (by rw [List.length_mergeSort]; exact hskip)]
    simp
  · simp only [paginatedResponse]
    simp [hnotlt]
  · simp only [paginatedResponse]
    simp [hnotlt]
  · simp only [paginatedResponse]
    simp
  · simp only [paginatedResponse]
    by_cases h1 : 1 < page <;> simp [h1]
  · simp only [paginatedResponse]
    simp

/-- Witness for claim C7: page 1 with page size 1 over the empty
collection is already beyond the last page. -/
theorem pagination_beyond_last_page_witness :
    1 ≤ 1 ∧
    ceilPages (([] : List CustomerRec).filter (matchesFilter 0 false)).length 1 < 1 ∧
    (getCustomerQuarterlyData ([] : List CustomerRec) 0 false 1 1).customers = [] ∧
    (paginatedResponse 1 1
        (([] : List CustomerRec).filter (matchesFilter 0 false)).length).hasNextPage
      = false :=
  have h2 : ceilPages (([] : List CustomerRec).filter (matchesFilter 0 false)).length 1 < 1 := by
    simp [ceilPages]
  ⟨le_refl 1, h2,
    (pagination_beyond_last_page [] 0 false 1 1 (le_refl 1) h2).1,
    (pagination_beyond_last_page [] 0 false 1 1 (le_refl 1) h2).2.1⟩

/-- Exactly one of the three variance classes holds for each customer, so
the class counts partition the input. -/
theorem variance_trichotomy_count (l : List CustomerRec) :
    (l.filter (fun c => decide (0 < varval c))).length
      + (l.filter (fun c => decide (varval c < 0))).length
      + (l.filter (fun c => decide (varval c = 0))).length = l.length := by
  induction l with
  | nil => simp
  | cons a t ih =>
    rcases lt_trichotomy (varval a) 0 with h | h | h
    · simp only [List.filter_cons, decide_eq_true_eq, List.length_cons]
      rw [if_neg (by simp [lt_asymm h]), if_pos (by simp [h]),
        if_neg (by simp [h.ne])]
      simp only [List.length_cons]
      omega
    · simp only [List.filter_cons, decide_eq_true_eq, List.length_cons]
      rw [if_neg (by simp [h]), if_neg (by simp [h]), if_pos (by simp [h])]
      simp only [List.length_cons]
      omega
    · simp only [List.filter_cons, decide_eq_true_eq, List.length_cons]
      rw [if_pos (by simp [h]), if_neg (by simp [not_lt.mpr (le_of_lt h)]),
        if_neg (by simp [h.ne'])]
      simp only [List.length_cons]
      omega

/-- Claim C8: the growth, decline and no-change counts sum to the input
length; the three class percentages sum to 100 on a non-empty input and
are all exactly 0 on the empty input. -/
theorem customerStatistics_distribution (l : List CustomerRec) :
    (getCustomerStatistics l).customersWithGrowth
        + (getCustomerStatistics l).customersWithDecline
        + (getCustomerStatistics l).customersNoChange
      = (getCustomerStatistics l).totalCustomers ∧
    (getCustomerStatistics l).totalCustomers = l.length ∧
    (l ≠ [] →
      (getCustomerStatistics l).growthPercentage
          + (getCustomerStatistics l).declinePercentage
          + (getCustomerStatistics l).noChangePercentage = 100) ∧
    (l = [] →
      (getCustomerStatistics l).growthPercentage = 0 ∧
      (getCustomerStatistics l).declinePercentage = 0 ∧
      (getCustomerStatistics l).noChangePercentage = 0) := by
  refine ⟨?_, rfl, ?_, ?_⟩
  · simpa [getCustomerStatistics] using variance_trichotomy_count l
  · intro hne
    have hn : 0 < l.length := List.length_pos.mpr hne
    have hcount := variance_trichotomy_count l
    have hq : ((l.filter (fun c => decide (0 < varval c))).length : ℚ)
        + ((l.filter (fun c => decide (varval c < 0))).length : ℚ)
        + ((l.filter (fun c => decide (varval c = 0))).length : ℚ)
        = (l.length : ℚ) := by exact_mod_cast hcount
    have hnQ : ((l.length : ℕ) : ℚ) ≠ 0 := by
      exact_mod_cast Nat.pos_iff_ne_zero.mp hn
    simp only [getCustomerStatistics, if_pos hn]
    field_simp
    linarith [hq]
  · intro h0
    subst h0
    simp [getCustomerStatistics]

/-- Witness for claim C8 at a one-customer input. -/
theorem customerStatistics_distribution_witness :
    ([CustomerRec.mk "X" none none (some 1) none] : List CustomerRec) ≠ [] ∧
    (getCustomerStatistics [CustomerRec.mk "X" none none (some 1) none]).growthPercentage
        + (getCustomerStatistics [CustomerRec.mk "X" none none (some 1) none]).declinePercentage
        + (getCustomerStatistics [CustomerRec.mk "X" none none (some 1) none]).noChangePercentage
      = 100 :=
  ⟨by simp,
    (customerStatistics_distribution [CustomerRec.mk "X" none none (some 1) none]).2.2.1
      (by simp)⟩

end Zenalyst
